import Mathlib

/-!
Shallow embedding of the rawhttp Go package (request.go / response.go, latest
API revision) together with theorems checking the natural-language
specification against it.

Go strings are byte sequences; the requests and responses handled here are
ASCII wire text, so strings are modelled as `List Char`.  Functions from the
Go standard library that the package calls (`strings.SplitN`,
`strings.TrimSpace`, `strings.ToLower`, `strconv.Atoi`, `bufio.ReadString`,
`net/url.Parse`) are modelled from their documented behaviour, restricted to
ASCII where Go is Unicode-aware; each model carries a comment saying what it
models.
-/

abbrev Str := List Char

/-- ASCII whitespace, modelling the characters `unicode.IsSpace` recognises
in ASCII wire text: space, tab, newline, carriage return, vertical tab,
form feed. -/
def isSpaceChar (c : Char) : Bool :=
  c = ' ' ∨ c = '\t' ∨ c = '\n' ∨ c = '\r' ∨ c = '\x0b' ∨ c = '\x0c'

/-- Models Go `strings.TrimSpace` (ASCII): drop whitespace from both ends. -/
def trimSpace (s : Str) : Str :=
  ((s.dropWhile isSpaceChar).reverse.dropWhile isSpaceChar).reverse

/-- ASCII lower-casing of one character, as Go `strings.ToLower` does for
ASCII input. -/
def lowerChar (c : Char) : Char :=
  if 'A' ≤ c ∧ c ≤ 'Z' then Char.ofNat (c.toNat + 32) else c

/-- Models Go `strings.ToLower` restricted to ASCII. -/
def toLowerStr (s : Str) : Str := s.map lowerChar

/-- Split at the first occurrence of character `c`: `some (before, after)`,
or `none` when `c` does not occur.  `strings.SplitN (s, c, 2)` returns two
pieces exactly when this returns `some`. -/
def splitFirstChar (c : Char) : Str → Option (Str × Str)
  | [] => none
  | x :: r =>
    if x = c then some ([], r)
    else
      match splitFirstChar c r with
      | none => none
      | some (a, b) => some (x :: a, b)

/-- `strings.Split (s, c) [0]`: everything before the first occurrence of
`c`, or all of `s` when `c` does not occur. -/
def cutBefore (c : Char) (s : Str) : Str :=
  match splitFirstChar c s with
  | none => s
  | some (a, _) => a

/-- Split at the last occurrence of `c`. -/
def lastSplitChar (c : Char) (s : Str) : Option (Str × Str) :=
  match splitFirstChar c s.reverse with
  | none => none
  | some (a, b) => some (b.reverse, a.reverse)

/-- Models `strings.SplitN (s, "//", 2)`: split at the first occurrence of
two adjacent slashes; `none` when `"//"` is not a substring (SplitN then
returns a single piece). -/
def cutDslash : Str → Option (Str × Str)
  | [] => none
  | [_] => none
  | c1 :: c2 :: r =>
    if c1 = '/' ∧ c2 = '/' then some ([], r)
    else
      match cutDslash (c2 :: r) with
      | none => none
      | some (a, b) => some (c1 :: a, b)

/-- `true` iff `"//"` occurs as a substring. -/
def hasDslash : Str → Bool
  | [] => false
  | [_] => false
  | c1 :: c2 :: r => (c1 = '/' ∧ c2 = '/') ∨ hasDslash (c2 :: r)

/-- Decimal value of a non-empty all-digit string, `none` otherwise. -/
def digitsVal : Str → Option Nat
  | [] => none
  | [c] => if c.isDigit then some (c.toNat - '0'.toNat) else none
  | c :: r =>
    if c.isDigit then
      match digitsVal r with
      | none => none
      | some n => some ((c.toNat - '0'.toNat) * 10 ^ r.length + n)
    else none

/-- Models Go `strconv.Atoi` on a 64-bit platform: an optional sign followed
by at least one decimal digit, rejecting anything else and rejecting values
outside the 64-bit signed range (`strconv.ErrRange`). -/
def atoi (s : Str) : Option Int :=
  match s with
  | '+' :: r =>
    match digitsVal r with
    | none => none
    | some n => if n ≤ 2 ^ 63 - 1 then some (n : Int) else none
  | '-' :: r =>
    match digitsVal r with
    | none => none
    | some n => if n ≤ 2 ^ 63 then some (-(n : Int)) else none
  | _ =>
    match digitsVal s with
    | none => none
    | some n => if n ≤ 2 ^ 63 - 1 then some (n : Int) else none

/-- Models `bufio.Reader.ReadString ('\n')` on a stream with no transport
errors: returns the data read up to and including the first `'\n'`, an
error flag (set exactly when the stream ended before a `'\n'` was found, in
which case all remaining bytes were consumed), and the unread remainder. -/
def readLine : Str → Str × Bool × Str
  | [] => ([], true, [])
  | c :: rest =>
    if c = '\n' then ([c], false, rest)
    else
      let (l, e, r) := readLine rest
      (c :: l, e, r)

theorem readLine_decomp (s : Str) :
    (readLine s).1 ++ (readLine s).2.2 = s ∧
      ((readLine s).2.1 = false → (readLine s).1 ≠ []) := by
  induction s with
  | nil => simp [readLine]
  | cons c rest ih =>
    by_cases h : c = '\n'
    · simp [readLine, h]
    · simp only [readLine, if_neg h]
      refine ⟨by simpa using ih.1, ?_⟩
      intro _
      simp

namespace rawhttp

/-- The `Response` struct of response.go: raw status line, raw header lines
in wire order, body bytes. -/
structure Response where
  rawStatus : Str
  headers : List Str
  body : Str
deriving DecidableEq

/-- Errors the response reader can produce, tagged by origin:
`ioError` for read failures (`io.EOF` / `io.ErrUnexpectedEOF`), `parseError`
for `strconv.Atoi` failures. -/
inductive RespErr where
  | ioError
  | parseError
deriving DecidableEq

/-- The shared header-search loop of `Response.Header` (response.go) and
`Request.Header` (request.go): lower-case the search string, walk the stored
headers in order, split each at the first `':'` (skipping lines without
one), and return the whitespace-trimmed value of the first line whose
lower-cased name matches; empty string when nothing matches. -/
def headerLookup (search : Str) : List Str → Str
  | [] => []
  | h :: t =>
    match splitFirstChar ':' h with
    | none => headerLookup search t
    | some (k, v) =>
      if toLowerStr k = toLowerStr search then trimSpace v
      else headerLookup search t

/-- `Response.Header` from response.go. -/
def Response.Header (r : Response) (search : Str) : Str :=
  headerLookup search r.headers

/-- One step of the header loop of `newResponse` per unit of fuel:
`ReadString ('\n')`, trim the line, stop on read error or on an empty
trimmed line (the erroring partial line is not appended); returns the
collected headers and the unread remainder of the stream.  Fuel only makes
the recursion structural; every non-final iteration consumes at least one
character, so any fuel above the stream length is enough
(`readHeadersGo_congr`). -/
def readHeadersGo : Nat → Str → List Str × Str
  | 0, s => ([], s)
  | fuel + 1, s =>
    let (line, err, rest) := readLine s
    if err ∨ trimSpace line = [] then ([], rest)
    else
      let p := readHeadersGo fuel rest
      (trimSpace line :: p.1, p.2)

/-- The header loop of `newResponse`, run with sufficient fuel. -/
def readHeaders (s : Str) : List Str × Str :=
  readHeadersGo (s.length + 1) s

theorem readHeadersGo_congr :
    ∀ (f1 f2 : Nat) (s : Str), s.length < f1 → s.length < f2 →
      readHeadersGo f1 s = readHeadersGo f2 s := by
  intro f1
  induction f1 with
  | zero => omega
  | succ f ih =>
    intro f2 s h1 h2
    cases f2 with
    | zero => omega
    | succ g =>
      have hd := readLine_decomp s
      rcases heq : readLine s with ⟨line, err, rest⟩
      rw [heq] at hd
      simp only at hd
      show readHeadersGo (f + 1) s = readHeadersGo (g + 1) s
      unfold readHeadersGo
      rw [heq]
      by_cases hbr : err = true ∨ trimSpace line = []
      · simp [hbr]
      · rw [not_or] at hbr
        have hline : line ≠ [] := hd.2 (eq_false_of_ne_true hbr.1)
        have hlen : rest.length < s.length := by
          have hsum : line.length + rest.length = s.length := by
            rw [← hd.1]; simp
          have : 0 < line.length := List.length_pos.mpr hline
          omega
        have hrec : readHeadersGo f rest = readHeadersGo g rest :=
          ih g rest (by omega) (by omega)
        simp only [hbr, hrec]

theorem readHeaders_unfold (s : Str) :
    readHeaders s =
      (let (line, err, rest) := readLine s
       if err ∨ trimSpace line = [] then ([], rest)
       else
         let p := readHeaders rest
         (trimSpace line :: p.1, p.2)) := by
  have hd := readLine_decomp s
  rcases heq : readLine s with ⟨line, err, rest⟩
  rw [heq] at hd
  simp only at hd
  show readHeadersGo (s.length + 1) s = _
  unfold readHeadersGo
  rw [heq]
  by_cases hbr : err = true ∨ trimSpace line = []
  · simp [hbr]
  · rw [not_or] at hbr
    have hline : line ≠ [] := hd.2 (eq_false_of_ne_true hbr.1)
    have hlen : rest.length < s.length := by
      have hsum : line.length + rest.length = s.length := by
        rw [← hd.1]; simp
      have : 0 < line.length := List.length_pos.mpr hline
      omega
    have hrec : readHeadersGo s.length rest = readHeaders rest :=
      readHeadersGo_congr s.length (rest.length + 1) rest (by omega) (by omega)
    simp only [hbr, hrec]

/-- The body-framing half of `newResponse` (response.go, from the
`Content-Length` lookup onward): a missing or empty-valued lookup means
read everything that remains (`ioutil.ReadAll`); otherwise `Atoi` the value
(parse error on failure), read exactly `N` bytes when `N > 0` (`io` error
when fewer remain, as `io.ReadAtLeast` reports `ErrUnexpectedEOF`), empty
body when `N ≤ 0`. -/
def bodyFrame (rawStatus : Str) (headers : List Str) (rest2 : Str) :
    Option Response × Option RespErr :=
  let cl := headerLookup ("Content-Length".data) headers
  if cl ≠ [] then
    match atoi cl with
    | none => (none, some .parseError)
    | some n =>
      if 0 < n then
        if n.toNat ≤ rest2.length then
          (some ⟨rawStatus, headers, rest2.take n.toNat⟩, none)
        else (none, some .ioError)
      else (some ⟨rawStatus, headers, []⟩, none)
  else (some ⟨rawStatus, headers, rest2⟩, none)

/-- `newResponse` from response.go, on an input stream with no transport
errors: read the status line (fail when the stream ends before a newline
was found), trim it, run the header loop, then frame the body via
`bodyFrame`.  The Go function returns the pair `(*Response, error)`; both
components are modelled so that their exclusivity is a theorem rather than
a typing artefact. -/
def newResponse (s : Str) : Option Response × Option RespErr :=
  let (line, err, rest) := readLine s
  if err then (none, some .ioError)
  else
    let (headers, rest2) := readHeaders rest
    bodyFrame (trimSpace line) headers rest2

/-- The `Request` struct of request.go (latest revision, with `Scheme`,
`EOL` and `Timeout`).  `Timeout` is modelled in seconds. -/
structure Request where
  TLS : Bool
  Method : Str
  Scheme : Str
  Hostname : Str
  Port : Str
  Path : Str
  Query : Str
  Fragment : Str
  Proto : Str
  Headers : List Str
  Body : Str
  EOL : Str
  Timeout : Nat
deriving DecidableEq

/-- `&Request{}`: the zero value of the struct, which `FromURL` returns
alongside the error when `url.Parse` fails. -/
def emptyRequest : Request :=
  ⟨false, [], [], [], [], [], [], [], [], [], [], [], 0⟩

/-- `Request.fullPath` from request.go: the path, then `"?" + Query` when
`Query` is non-empty, then `"#" + Fragment` when `Fragment` is non-empty. -/
def Request.fullPath (r : Request) : Str :=
  let q : Str := if r.Query ≠ [] then '?' :: r.Query else []
  let f : Str := if r.Fragment ≠ [] then '#' :: r.Fragment else []
  r.Path ++ q ++ f

/-- `Request.RequestLine`: `fmt.Sprintf ("%s %s %s", Method, fullPath,
Proto)`. -/
def Request.RequestLine (r : Request) : Str :=
  r.Method ++ ' ' :: (Request.fullPath r ++ ' ' :: r.Proto)

/-- The header-writing loop of `Request.String`: each header followed by the
request's EOL, appended to the buffer in order. -/
def writeHeaderLines (hs : List Str) (eol : Str) : Str :=
  match hs with
  | [] => []
  | h :: t => (h ++ eol) ++ writeHeaderLines t eol

/-- `Request.String` from request.go: request line + EOL, each header + EOL,
one more EOL, then the body, accumulated in a buffer in that order. -/
def Request.String (r : Request) : Str :=
  ((Request.RequestLine r ++ r.EOL) ++ writeHeaderLines r.Headers r.EOL)
    ++ (r.EOL ++ r.Body)

/-- The `RawRequest` struct of request.go (latest revision). -/
structure RawRequest where
  TLS : Bool
  Hostname : Str
  Port : Str
  Request : Str
  Timeout : Nat
deriving DecidableEq

/-- `RawRequest.String`: the stored literal request string, verbatim. -/
def RawRequest.String (r : RawRequest) : Str := r.Request

/-- The `Requester` interface with its exactly two implementations in the
package. -/
inductive Requester where
  | ofRequest (r : Request)
  | ofRawRequest (r : RawRequest)
deriving DecidableEq

/-- Dynamic dispatch of `Requester.String()`. -/
def Requester.StringR : Requester → Str
  | .ofRequest r => Request.String r
  | .ofRawRequest r => RawRequest.String r

/-- Dynamic dispatch of `Requester.IsTLS()`. -/
def Requester.IsTLS : Requester → Bool
  | .ofRequest r => r.TLS
  | .ofRawRequest r => r.TLS

/-- The environment `Do` runs against: whether `x509.SystemCertPool`
succeeds, whether the TCP/TLS dial succeeds, whether writes to the
connection succeed, and the bytes the server sends back.  `writeOk` is part
of the world because the connection's writes can fail; whether `Do` reacts
to that is a property to be proved, not assumed. -/
structure ConnWorld where
  certPoolOk : Bool
  dialOk : Bool
  writeOk : Bool
  stream : Str
deriving DecidableEq

/-- Operations `Do` performs on the opened connection. -/
inductive ConnOp where
  | write (s : Str)
  | close
deriving DecidableEq

/-- Errors `Do` can return, tagged by origin. -/
inductive DoErr where
  | certPoolErr
  | connErr
  | respErr (e : RespErr)
deriving DecidableEq

/-- `Do` from request.go: on the TLS path, load the system cert pool
(returning its error on failure) and dial with TLS; otherwise dial plain
TCP; return the dial error on failure.  Then `fmt.Fprint` the request's
`String()` and one `"\r\n"` to the connection — both return values of
`fmt.Fprint` are discarded in the source, so the world's `writeOk` flag is
deliberately never consulted — and hand the connection to `newResponse`.
The result is the list of operations performed on the opened connection
paired with the returned `(*Response, error)`; the source contains no call
that closes the connection, hence no `ConnOp.close` is ever emitted. -/
def Do (req : Requester) (w : ConnWorld) :
    List ConnOp × (Option Response × Option DoErr) :=
  if req.IsTLS ∧ ¬ w.certPoolOk then ([], (none, some .certPoolErr))
  else if ¬ w.dialOk then ([], (none, some .connErr))
  else
    let ops := [ConnOp.write (Requester.StringR req),
                ConnOp.write ('\r' :: '\n' :: [])]
    let (resp, err) := newResponse w.stream
    (ops, (resp, err.map .respErr))

/-- The spec's `fullPath` invariant, written from the specification text:
path, then `"?" + query` if the query is non-empty, then `"#" + fragment`
if the fragment is non-empty. -/
def specFullPath (r : Request) : Str :=
  r.Path ++ (if r.Query = [] then [] else '?' :: r.Query)
    ++ (if r.Fragment = [] then [] else '#' :: r.Fragment)

/-- The wire format claimed by the specification: request line
`Method + " " + fullPath + " " + Proto` followed by EOL, each header in
insertion order followed by EOL, one further EOL, then the body with
nothing after it. -/
def specRender (r : Request) : Str :=
  r.Method ++ (' ' :: []) ++ specFullPath r ++ (' ' :: []) ++ r.Proto
    ++ r.EOL ++ (r.Headers.map (fun h => h ++ r.EOL)).flatten ++ r.EOL ++ r.Body

theorem writeHeaderLines_eq_join (hs : List Str) (eol : Str) :
    writeHeaderLines hs eol = (hs.map (fun h => h ++ eol)).flatten := by
  induction hs with
  | nil => rfl
  | cons h t ih => simp [writeHeaderLines, ih]

/-- C5: the Wire Formatter produces exactly the request line, the headers in
insertion order each followed by the request's EOL (none added, none
removed), a blank line, and the body with no trailing terminator; and
`fullPath` follows the path/query/fragment invariant of the spec. -/
theorem c5_wire_format (r : Request) : Request.String r = specRender r := by
  unfold Request.String specRender Request.RequestLine Request.fullPath
    specFullPath
  rw [writeHeaderLines_eq_join]
  by_cases hq : r.Query = [] <;> by_cases hf : r.Fragment = [] <;>
    simp [hq, hf]

/-- Whether one stored header line matches a search name, written from the
claim: a line with no `':'` never matches; otherwise the part before the
first `':'` must equal the search string up to letter case, and the match's
result is the whitespace-trimmed part after the `':'`. -/
def headerMatch (search h : Str) : Option Str :=
  match splitFirstChar ':' h with
  | none => none
  | some (k, v) =>
    if toLowerStr k = toLowerStr search then some (trimSpace v) else none

theorem headerLookup_cons (s h : Str) (t : List Str) :
    headerLookup s (h :: t) =
      match headerMatch s h with
      | some v => v
      | none => headerLookup s t := by
  cases hsp : splitFirstChar ':' h with
  | none => simp [headerLookup, headerMatch, hsp]
  | some kv =>
    obtain ⟨k, v⟩ := kv
    by_cases hk : toLowerStr k = toLowerStr s <;>
      simp [headerLookup, headerMatch, hsp, hk]

/-- C10: `Response.Header` returns the value of the first matching header in
wire order (later duplicates — anything in `post` — are ignored), lines
without a `':'` separator never match (they may sit in `pre` with
`headerMatch = none`), and when no stored header matches the result is the
empty string. -/
theorem c10_header_first_match (st b : Str) (pre post : List Str)
    (x s v : Str) (h1 : ∀ h ∈ pre, headerMatch s h = none) :
    (headerMatch s x = some v →
        Response.Header ⟨st, pre ++ x :: post, b⟩ s = v) ∧
      Response.Header ⟨st, pre, b⟩ s = [] := by
  induction pre with
  | nil =>
    constructor
    · intro hm
      show headerLookup s (x :: post) = v
      rw [headerLookup_cons, hm]
    · rfl
  | cons p t ih =>
    have hp : headerMatch s p = none := h1 p (by simp)
    have ht : ∀ h ∈ t, headerMatch s h = none := fun h hh => h1 h (by simp [hh])
    constructor
    · intro hm
      show headerLookup s (p :: (t ++ x :: post)) = v
      rw [headerLookup_cons, hp]
      exact (ih ht).1 hm
    · show headerLookup s (p :: t) = []
      rw [headerLookup_cons, hp]
      exact (ih ht).2

theorem splitFirstChar_of_not_mem (c : Char) (s : Str) (h : c ∉ s) :
    splitFirstChar c s = none := by
  induction s with
  | nil => rfl
  | cons x r ih =>
    have hx : x ≠ c := fun he => h (he ▸ List.mem_cons_self x r)
    have hr : c ∉ r := fun hm => h (List.mem_cons_of_mem x hm)
    simp [splitFirstChar, hx, ih hr]

theorem splitFirstChar_append (c : Char) (a b : Str) (h : c ∉ a) :
    splitFirstChar c (a ++ c :: b) = some (a, b) := by
  induction a with
  | nil => simp [splitFirstChar]
  | cons x r ih =>
    have hx : x ≠ c := fun he => h (he ▸ List.mem_cons_self x r)
    have hr : c ∉ r := fun hm => h (List.mem_cons_of_mem x hm)
    simp [splitFirstChar, hx, ih hr]

theorem readLine_no_newline (s : Str) (h : '\n' ∉ s) :
    readLine s = (s, true, []) := by
  induction s with
  | nil => rfl
  | cons c r ih =>
    have hc : c ≠ '\n' := fun he => h (he ▸ List.mem_cons_self c r)
    have hr : '\n' ∉ r := fun hm => h (List.mem_cons_of_mem c hm)
    simp [readLine, hc, ih hr]

theorem readLine_append (a b : Str) (h : '\n' ∉ a) :
    readLine (a ++ '\n' :: b) = (a ++ ['\n'], false, b) := by
  induction a with
  | nil => simp [readLine]
  | cons x r ih =>
    have hx : x ≠ '\n' := fun he => h (he ▸ List.mem_cons_self x r)
    have hr : '\n' ∉ r := fun hm => h (List.mem_cons_of_mem x hm)
    simp [readLine, hx, ih hr]

theorem trimSpace_append_newline (a : Str) :
    trimSpace (a ++ ['\n']) = trimSpace a := by
  have hnl : isSpaceChar '\n' = true := by decide
  unfold trimSpace
  by_cases h : (a.dropWhile isSpaceChar).isEmpty
  · have ha : a.dropWhile isSpaceChar = [] := List.isEmpty_iff.mp h
    have h2 : (a ++ ['\n']).dropWhile isSpaceChar = [] := by
      rw [List.dropWhile_append]
      simp [h, List.dropWhile, hnl]
    simp [ha, h2]
  · have h2 : (a ++ ['\n']).dropWhile isSpaceChar
        = a.dropWhile isSpaceChar ++ ['\n'] := by
      rw [List.dropWhile_append]
      simp [h]
    rw [h2, List.reverse_append]
    simp [List.dropWhile, hnl]

/-- A well-formed header block as it appears on the wire: each line followed
by a `'\n'`. -/
def mkHeaderBlock (hs : List Str) : Str :=
  (hs.map (fun l => l ++ ['\n'])).flatten

/-- A well-formed response stream: status line, header lines, the blank
line, then the rest of the stream. -/
def mkStream (status : Str) (hs : List Str) (tail : Str) : Str :=
  status ++ '\n' :: (mkHeaderBlock hs ++ '\n' :: tail)

theorem readHeaders_block (hs : List Str) (tail : Str)
    (h : ∀ l ∈ hs, '\n' ∉ l ∧ trimSpace l ≠ []) :
    readHeaders (mkHeaderBlock hs ++ '\n' :: tail) = (hs.map trimSpace, tail) := by
  induction hs with
  | nil =>
    rw [readHeaders_unfold]
    have : readLine ([] ++ '\n' :: tail) = ([] ++ ['\n'], false, tail) :=
      readLine_append [] tail (by simp)
    simp only [mkHeaderBlock, List.map_nil, List.flatten_nil, List.nil_append] at *
    rw [this]
    have ht : trimSpace (['\n'] : Str) = [] := by decide
    simp [ht]
  | cons l t ih =>
    have hl := h l (by simp)
    have ht : ∀ x ∈ t, '\n' ∉ x ∧ trimSpace x ≠ [] := fun x hx => h x (by simp [hx])
    rw [readHeaders_unfold]
    have harr : mkHeaderBlock (l :: t) ++ '\n' :: tail
        = l ++ '\n' :: (mkHeaderBlock t ++ '\n' :: tail) := by
      simp [mkHeaderBlock]
    rw [harr, readLine_append l _ hl.1]
    have htr : trimSpace (l ++ ['\n']) = trimSpace l := trimSpace_append_newline l
    simp only [htr, ih ht]
    simp [hl.2]

theorem readHeaders_block_trunc (hs : List Str) (plin : Str)
    (h : ∀ l ∈ hs, '\n' ∉ l ∧ trimSpace l ≠ []) (hp : '\n' ∉ plin) :
    readHeaders (mkHeaderBlock hs ++ plin) = (hs.map trimSpace, []) := by
  induction hs with
  | nil =>
    rw [readHeaders_unfold]
    simp only [mkHeaderBlock, List.map_nil, List.flatten_nil, List.nil_append]
    rw [readLine_no_newline plin hp]
    simp
  | cons l t ih =>
    have hl := h l (by simp)
    have ht : ∀ x ∈ t, '\n' ∉ x ∧ trimSpace x ≠ [] := fun x hx => h x (by simp [hx])
    rw [readHeaders_unfold]
    have harr : mkHeaderBlock (l :: t) ++ plin
        = l ++ '\n' :: (mkHeaderBlock t ++ plin) := by
      simp [mkHeaderBlock]
    rw [harr, readLine_append l _ hl.1]
    have htr : trimSpace (l ++ ['\n']) = trimSpace l := trimSpace_append_newline l
    simp only [htr, ih ht]
    simp [hl.2]

/-- Parsing a well-formed stream: trimmed status, the header loop collects
the trimmed header lines, and the body is framed on the remaining tail. -/
theorem newResponse_mkStream (status : Str) (hs : List Str) (tail : Str)
    (hst : '\n' ∉ status) (hh : ∀ l ∈ hs, '\n' ∉ l ∧ trimSpace l ≠ []) :
    newResponse (mkStream status hs tail)
      = bodyFrame (trimSpace status) (hs.map trimSpace) tail := by
  unfold newResponse mkStream
  rw [readLine_append status _ hst]
  simp only [Bool.false_eq_true, if_false]
  rw [readHeaders_block hs tail hh, trimSpace_append_newline status]

theorem map_trimSpace_id (t : List Str) (h : ∀ l ∈ t, trimSpace l = l) :
    t.map trimSpace = t := by
  induction t with
  | nil => rfl
  | cons a b ih =>
    simp only [List.map_cons]
    rw [h a (by simp), ih (fun x hx => h x (by simp [hx]))]

/-- C2 (amended): body framing of the Response Reader on a well-formed
stream.  When the `Content-Length` lookup over the stored headers is empty
— the header is absent, or present with a value that trims to the empty
string — the body is all remaining bytes.  When the lookup is non-empty:
a value that `Atoi` rejects is a parse error; a positive `N` reads exactly
the next `N` bytes (bytes beyond `N` are not consumed into the body) and is
an I/O error when fewer than `N` bytes remain; a zero or negative `N`
yields an empty body. -/
theorem c2_body_framing (status : Str) (hs : List Str) (tail : Str)
    (hst : '\n' ∉ status)
    (hh : ∀ l ∈ hs, '\n' ∉ l ∧ trimSpace l = l ∧ l ≠ []) :
    (headerLookup ("Content-Length".data) hs = [] →
        newResponse (mkStream status hs tail)
          = (some ⟨trimSpace status, hs, tail⟩, none)) ∧
    (∀ n : Int, headerLookup ("Content-Length".data) hs ≠ [] →
        atoi (headerLookup ("Content-Length".data) hs) = some n →
        ((0 < n → n.toNat ≤ tail.length →
            newResponse (mkStream status hs tail)
              = (some ⟨trimSpace status, hs, List.take n.toNat tail⟩, none)) ∧
         (0 < n → tail.length < n.toNat →
            newResponse (mkStream status hs tail) = (none, some .ioError)) ∧
         (n ≤ 0 →
            newResponse (mkStream status hs tail)
              = (some ⟨trimSpace status, hs, []⟩, none)))) ∧
    (headerLookup ("Content-Length".data) hs ≠ [] →
        atoi (headerLookup ("Content-Length".data) hs) = none →
        newResponse (mkStream status hs tail) = (none, some .parseError)) := by
  have hwf : ∀ l ∈ hs, '\n' ∉ l ∧ trimSpace l ≠ [] := by
    intro l hl
    obtain ⟨h1, h2, h3⟩ := hh l hl
    exact ⟨h1, by rw [h2]; exact h3⟩
  have hmap : hs.map trimSpace = hs :=
    map_trimSpace_id hs (fun l hl => (hh l hl).2.1)
  have hkey : newResponse (mkStream status hs tail)
      = bodyFrame (trimSpace status) hs tail := by
    rw [newResponse_mkStream status hs tail hst hwf, hmap]
  refine ⟨?_, ?_, ?_⟩
  · intro hcl
    rw [hkey]
    simp [bodyFrame, hcl]
  · intro n hcl hat
    refine ⟨?_, ?_, ?_⟩
    · intro hpos hle
      rw [hkey]
      simp [bodyFrame, hcl, hat, hpos, hle]
    · intro hpos hgt
      have hnle : ¬ (n.toNat ≤ tail.length) := not_le.mpr hgt
      rw [hkey]
      simp [bodyFrame, hcl, hat, hpos, hnle]
    · intro hnonpos
      have hnpos : ¬ (0 < n) := not_lt.mpr hnonpos
      rw [hkey]
      simp [bodyFrame, hcl, hat, hnpos]
  · intro hcl hat
    rw [hkey]
    simp [bodyFrame, hcl, hat]

/-- Witness for C2 at a concrete stream: `Content-Length: 3` with six body
bytes available frames the body as exactly the first three. -/
theorem c2_body_framing_witness :
    newResponse (mkStream ("HTTP/1.1 200 OK".data)
        [("Content-Length: 3".data)] ("abcdef".data))
      = (some ⟨("HTTP/1.1 200 OK".data), [("Content-Length: 3".data)],
          ("abc".data)⟩, none) := by
  have h := ((c2_body_framing ("HTTP/1.1 200 OK".data)
      [("Content-Length: 3".data)] ("abcdef".data) (by decide)
      (by decide)).2.1 3 (by decide) (by decide)).1 (by decide) (by decide)
  exact h

/-- Counterexample to C2 as stated: the stream carries a `Content-Length`
header (its line splits at the colon into the name `Content-Length` and an
empty value, and the empty value is not a valid integer for `Atoi`), yet
`newResponse` does not fail with a parse error — the empty lookup falls
into the read-everything branch and succeeds with body `abc`. -/
theorem c2_counterexample :
    newResponse ("HTTP/1.1 200 OK\nContent-Length:\n\nabc".data)
      = (some ⟨("HTTP/1.1 200 OK".data), [("Content-Length:".data)],
          ("abc".data)⟩, none) ∧
    splitFirstChar ':' ("Content-Length:".data)
      = some (("Content-Length".data), []) ∧
    atoi (trimSpace []) = none := by decide

theorem bodyFrame_rawStatus (rs : Str) (hdrs : List Str) (r2 : Str)
    (resp : Response) (h : (bodyFrame rs hdrs r2).1 = some resp) :
    resp.rawStatus = rs := by
  by_cases hcl : headerLookup ("Content-Length".data) hdrs = []
  · simp [bodyFrame, hcl] at h
    rw [← h]
  · cases hat : atoi (headerLookup ("Content-Length".data) hdrs) with
    | none => simp [bodyFrame, hcl, hat] at h
    | some n =>
      by_cases hpos : 0 < n
      · by_cases hle : n.toNat ≤ r2.length
        · simp [bodyFrame, hcl, hat, hpos, hle] at h
          rw [← h]
        · simp [bodyFrame, hcl, hat, hpos, hle] at h
      · simp [bodyFrame, hcl, hat, hpos] at h
        rw [← h]

/-- C6 (amended): the Response Reader fails with an I/O error when the
stream holds no newline-terminated first line at all (no Response is
produced even when bytes were read); otherwise the trimmed first line
becomes `rawStatus` of any Response produced.  The header loop appends each
non-empty whitespace-trimmed line and stops at the first empty line or read
failure; a read failure mid-headers ends the header section without an
error and the partial unterminated line is discarded, so a stream truncated
mid-headers still yields a Response provided the subsequent body framing
succeeds — here, when the collected headers give an empty `Content-Length`
lookup. -/
theorem c6_status_line_and_header_loop (s status rest plin : Str)
    (hs : List Str) (h1 : '\n' ∉ s) (hst : '\n' ∉ status)
    (hh : ∀ l ∈ hs, '\n' ∉ l ∧ trimSpace l ≠ []) (hp : '\n' ∉ plin)
    (hcl : headerLookup ("Content-Length".data) (hs.map trimSpace) = []) :
    newResponse s = (none, some .ioError) ∧
    (∀ resp, (newResponse (status ++ '\n' :: rest)).1 = some resp →
        resp.rawStatus = trimSpace status) ∧
    newResponse (status ++ '\n' :: (mkHeaderBlock hs ++ plin))
      = (some ⟨trimSpace status, hs.map trimSpace, []⟩, none) := by
  refine ⟨?_, ?_, ?_⟩
  · unfold newResponse
    rw [readLine_no_newline s h1]
    simp
  · intro resp hresp
    unfold newResponse at hresp
    rw [readLine_append status rest hst] at hresp
    simp only [Bool.false_eq_true, if_false] at hresp
    rw [trimSpace_append_newline status] at hresp
    exact bodyFrame_rawStatus (trimSpace status)
      (readHeaders rest).1 (readHeaders rest).2 resp hresp
  · unfold newResponse
    rw [readLine_append status _ hst]
    simp only [Bool.false_eq_true, if_false]
    rw [readHeaders_block_trunc hs plin hh hp, trimSpace_append_newline status]
    simp [bodyFrame, hcl]

/-- Witness for C6 at concrete streams: a stream with no newline fails with
an I/O error; a stream truncated in the middle of its second header line
still parses, keeping the first header and dropping the partial line. -/
theorem c6_status_line_and_header_loop_witness :
    newResponse ("HTTP/1.1 404".data) = (none, some .ioError) ∧
    newResponse ("HTTP/1.1 200 OK\nX-A: 1\nX-B".data)
      = (some ⟨("HTTP/1.1 200 OK".data), [("X-A: 1".data)], []⟩, none) := by
  have h := c6_status_line_and_header_loop ("HTTP/1.1 404".data)
      ("HTTP/1.1 200 OK".data) [] ("X-B".data) [("X-A: 1".data)]
      (by decide) (by decide) (by decide) (by decide) (by decide)
  exact ⟨h.1, h.2.2⟩

/-- Counterexample to C6 as stated: this stream is truncated mid-headers
(the second header line never gets its newline), yet no Response is
produced — the collected `Content-Length: 5` header makes the body framing
fail with an I/O error.  So "a stream truncated mid-headers still yields a
Response" does not hold unconditionally. -/
theorem c6_counterexample :
    newResponse ("HTTP/1.1 200 OK\nContent-Length: 5\nX-Fo".data)
      = (none, some .ioError) := by decide

theorem headerMatch_toLower (s1 s2 x : Str)
    (h : toLowerStr s1 = toLowerStr s2) :
    headerMatch s1 x = headerMatch s2 x := by
  unfold headerMatch
  cases splitFirstChar ':' x with
  | none => rfl
  | some kv => rw [h]

theorem headerLookup_toLower (s1 s2 : Str) (h : toLowerStr s1 = toLowerStr s2) :
    ∀ hs : List Str, headerLookup s1 hs = headerLookup s2 hs := by
  intro hs
  induction hs with
  | nil => rfl
  | cons x t ih =>
    rw [headerLookup_cons, headerLookup_cons, headerMatch_toLower s1 s2 x h, ih]

/-- C8 (amended): header lines are stored in wire order with case and
duplicates preserved but each line whitespace-trimmed at both ends (so not
byte-for-byte "exactly as received" when a line carries surrounding
whitespace); lookups are case-insensitive in the header name — two search
strings equal up to ASCII case give the same result on every Response —
and a matched header's value is returned with surrounding whitespace
trimmed. -/
theorem c8_header_storage_and_lookup (status : Str) (lines : List Str)
    (tail : Str) (s1 s2 : Str) (hst : '\n' ∉ status)
    (hh : ∀ l ∈ lines, '\n' ∉ l ∧ trimSpace l ≠ [])
    (hcl : headerLookup ("Content-Length".data) (lines.map trimSpace) = []) :
    newResponse (mkStream status lines tail)
      = (some ⟨trimSpace status, lines.map trimSpace, tail⟩, none) ∧
    (toLowerStr s1 = toLowerStr s2 →
        ∀ r : Response, Response.Header r s1 = Response.Header r s2) ∧
    (∀ (k v : Str) (t : List Str), (':' : Char) ∉ k →
        toLowerStr k = toLowerStr s1 →
        Response.Header ⟨status, (k ++ ':' :: v) :: t, tail⟩ s1
          = trimSpace v) := by
  refine ⟨?_, ?_, ?_⟩
  · rw [newResponse_mkStream status lines tail hst hh]
    simp [bodyFrame, hcl]
  · intro h r
    exact headerLookup_toLower s1 s2 h r.headers
  · intro k v t hk hks
    show headerLookup s1 ((k ++ ':' :: v) :: t) = trimSpace v
    rw [headerLookup_cons]
    unfold headerMatch
    rw [splitFirstChar_append ':' k v hk]
    simp [hks]

/-- Witness for C8 at a concrete stream: the received header line carries
surrounding whitespace and is stored trimmed; lookups under two casings of
the name agree on the parsed response. -/
theorem c8_header_storage_and_lookup_witness :
    newResponse (mkStream ("HTTP/1.1 200 OK".data)
        [("  Content-Type: text/plain  ".data)] ("BB".data))
      = (some ⟨("HTTP/1.1 200 OK".data), [("Content-Type: text/plain".data)],
          ("BB".data)⟩, none) ∧
    Response.Header ⟨("HTTP/1.1 200 OK".data),
        [("Content-Type: text/plain".data)], ("BB".data)⟩
        ("content-type".data)
      = Response.Header ⟨("HTTP/1.1 200 OK".data),
        [("Content-Type: text/plain".data)], ("BB".data)⟩
        ("Content-Type".data) := by
  have h := c8_header_storage_and_lookup ("HTTP/1.1 200 OK".data)
      [("  Content-Type: text/plain  ".data)] ("BB".data)
      ("content-type".data) ("Content-Type".data)
      (by decide) (by decide) (by decide)
  exact ⟨h.1, h.2.1 (by decide)
    ⟨("HTTP/1.1 200 OK".data), [("Content-Type: text/plain".data)],
      ("BB".data)⟩⟩

/-- Counterexample to C8 as stated: the single header line arrives as
`" X-Token: y "` (with surrounding whitespace) but is stored as
`"X-Token: y"` — not byte-for-byte as received. -/
theorem c8_counterexample :
    (newResponse ("HTTP/1.1 200 OK\n X-Token: y \n\n".data)).1
      = some ⟨("HTTP/1.1 200 OK".data), [("X-Token: y".data)], []⟩ ∧
    (("X-Token: y".data) : Str) ≠ (" X-Token: y ".data) := by decide

/-- Witness for C10 at a concrete response: two headers with the same name
up to case; lookup with a third spelling of the name returns the first
header's trimmed value. -/
theorem c10_header_first_match_witness :
    Response.Header
        ⟨("HTTP/1.1 200 OK".data),
          [("X-Dup: a".data), ("x-dup: b".data)], []⟩
        ("X-DUP".data) = ("a".data) :=
  (c10_header_first_match ("HTTP/1.1 200 OK".data) [] []
      [("x-dup: b".data)] ("X-Dup: a".data) ("X-DUP".data) ("a".data)
      (by decide)).1 (by decide)

/-- C7: on a successfully opened connection (dial succeeded and the cert
pool step did not fail), `Do` writes exactly the description's rendered
wire string followed by one additional `"\r\n"` — the extra terminator is
the fixed two bytes `'\r' '\n'` whatever the request's configured EOL is,
since the theorem holds for every `Requester` — and a `RawRequest` renders
as its stored literal string, unmodified. -/
theorem c7_dispatch_writes (req : Requester) (w : ConnWorld)
    (hdial : w.dialOk = true)
    (hcert : req.IsTLS = false ∨ w.certPoolOk = true) :
    (Do req w).1 = [ConnOp.write (Requester.StringR req),
                    ConnOp.write ('\r' :: '\n' :: [])] ∧
    (∀ rr : RawRequest, Requester.StringR (.ofRawRequest rr) = rr.Request) := by
  constructor
  · have hc : ¬ (req.IsTLS ∧ ¬ w.certPoolOk) := by
      rcases hcert with h | h <;> simp [h]
    unfold Do
    rw [if_neg hc]
    simp [hdial]
  · intro rr
    rfl

/-- Witness for C7: a concrete raw request over a plain connection; the two
writes are the literal request text and `"\r\n"`. -/
theorem c7_dispatch_writes_witness :
    (Do (.ofRawRequest ⟨false, ("h".data), ("80".data),
        ("GET / HTTP/1.0".data), 0⟩)
        ⟨true, true, true, ("HTTP/1.1 200 OK\n\n".data)⟩).1
      = [ConnOp.write ("GET / HTTP/1.0".data),
         ConnOp.write ("\r\n".data)] :=
  (c7_dispatch_writes
    (.ofRawRequest ⟨false, ("h".data), ("80".data), ("GET / HTTP/1.0".data), 0⟩)
    ⟨true, true, true, ("HTTP/1.1 200 OK\n\n".data)⟩ rfl (Or.inl rfl)).1

/-- C3 (the code against the claim): no exit path of `Do` ever closes the
connection — the source contains no `Close` call at all (`conn` is typed
`io.ReadWriter`), so the operation trace never contains a close, on success
or on any error path. -/
theorem c3_never_closes (req : Requester) (w : ConnWorld) :
    ConnOp.close ∉ (Do req w).1 := by
  unfold Do
  by_cases h1 : req.IsTLS ∧ ¬ w.certPoolOk
  · simp [h1]
  · rw [if_neg h1]
    by_cases h2 : w.dialOk <;> simp [h2]

theorem bodyFrame_exclusive (rs : Str) (hdrs : List Str) (r2 : Str) :
    ((bodyFrame rs hdrs r2).1.isSome ↔ (bodyFrame rs hdrs r2).2 = none) := by
  by_cases hcl : headerLookup ("Content-Length".data) hdrs = []
  · simp [bodyFrame, hcl]
  · cases hat : atoi (headerLookup ("Content-Length".data) hdrs) with
    | none => simp [bodyFrame, hcl, hat]
    | some n =>
      by_cases hpos : 0 < n
      · by_cases hle : n.toNat ≤ r2.length <;>
          simp [bodyFrame, hcl, hat, hpos, hle]
      · simp [bodyFrame, hcl, hat, hpos]

theorem newResponse_exclusive (s : Str) :
    ((newResponse s).1.isSome ↔ (newResponse s).2 = none) := by
  unfold newResponse
  rcases heq : readLine s with ⟨line, err, rest⟩
  cases err with
  | true => simp
  | false =>
    simp only [Bool.false_eq_true, if_false]
    exact bodyFrame_exclusive (trimSpace line) (readHeaders rest).1
      (readHeaders rest).2

/-- C4 (amended): `Do` returns exactly one of a Response or an error, never
both and never neither; cert-pool, dial and parse errors are propagated
with no Response alongside; but a failure while writing the request is not
reported — the returned pair is independent of whether the connection's
writes succeed, because both `fmt.Fprint` return values are discarded in
the source. -/
theorem c4_result_exclusive (req : Requester) (w : ConnWorld) (b : Bool) :
    ((Do req w).2.1.isSome ↔ (Do req w).2.2 = none) ∧
    (Do req { w with writeOk := b }).2 = (Do req w).2 ∧
    (req.IsTLS = true → w.certPoolOk = false →
        (Do req w).2 = (none, some .certPoolErr)) ∧
    ((req.IsTLS = false ∨ w.certPoolOk = true) → w.dialOk = false →
        (Do req w).2 = (none, some .connErr)) ∧
    ((req.IsTLS = false ∨ w.certPoolOk = true) → w.dialOk = true →
        ∀ e, (newResponse w.stream).2 = some e →
          (Do req w).2 = (none, some (.respErr e))) := by
  refine ⟨?_, ?_, ?_, ?_, ?_⟩
  · unfold Do
    by_cases h1 : req.IsTLS ∧ ¬ w.certPoolOk
    · simp [h1]
    · rw [if_neg h1]
      by_cases h2 : w.dialOk
      · simp only [h2, not_true, if_false]
        rcases hnr : newResponse w.stream with ⟨resp, err⟩
        have hx := newResponse_exclusive w.stream
        rw [hnr] at hx
        simp only at hx
        cases err with
        | none => simpa [hnr] using hx
        | some e => simpa [hnr] using hx
      · simp [h2]
  · unfold Do
    rfl
  · intro htls hcert
    unfold Do
    simp [htls, hcert]
  · intro hcert hdial
    have hc : ¬ (req.IsTLS ∧ ¬ w.certPoolOk) := by
      rcases hcert with h | h <;> simp [h]
    unfold Do
    rw [if_neg hc]
    simp [hdial]
  · intro hcert hdial e he
    have hc : ¬ (req.IsTLS ∧ ¬ w.certPoolOk) := by
      rcases hcert with h | h <;> simp [h]
    have hnone : (newResponse w.stream).1 = none := by
      have hx := newResponse_exclusive w.stream
      rw [he] at hx
      simpa using Option.not_isSome_iff_eq_none.mp (by simp [hx])
    unfold Do
    rw [if_neg hc]
    rcases hnr : newResponse w.stream with ⟨resp, err⟩
    rw [hnr] at he hnone
    simp only at he hnone
    simp [hdial, he, hnone]

/-- Witness for C4: a failed dial on a plain connection yields the
connection error and no Response. -/
theorem c4_result_exclusive_witness :
    (Do (.ofRawRequest ⟨false, ("h".data), ("80".data), ("GET /".data), 0⟩)
        ⟨true, false, true, []⟩).2 = (none, some .connErr) :=
  (c4_result_exclusive (.ofRawRequest ⟨false, ("h".data), ("80".data),
      ("GET /".data), 0⟩) ⟨true, false, true, []⟩ true).2.2.2.1
    (Or.inl rfl) rfl

/-- Counterexample to C4 as stated: every write on this connection fails
(`writeOk = false`), yet `Do` returns a parsed Response and no error — a
failure while writing the request to the connection is not reported. -/
theorem c4_counterexample :
    (Do (.ofRawRequest ⟨false, ("h".data), ("80".data), ("GET /".data), 0⟩)
        ⟨true, true, false, ("HTTP/1.1 200 OK\n\n".data)⟩).2
      = (some ⟨("HTTP/1.1 200 OK".data), [], []⟩, none) := by decide

/-! ### Model of Go `net/url.Parse` (as of Go 1.9, the library's era)

`FromURL` delegates URL parsing to `net/url` and reads back `u.Scheme`,
`u.Hostname()`, `u.Port()`, `u.RawQuery` and `u.Fragment`.  The model below
follows the documented behaviour and control flow of `url.Parse` on those
observations: the fragment is split off at the first `'#'` and stored
percent-DECODED (there is no raw-fragment accessor in this Go version), the
query is split off at the first `'?'` and stored raw, the scheme is the
lower-cased alphabetic prefix before a `':'`, and the authority between
`"//"` and the next `'/'` is validated (userinfo at the last `'@'`,
optional all-digit port after the last `':'`, escape checking).  Invalid
percent-escapes anywhere they are checked make parsing fail, as does a
leading `':'` (missing scheme) or a colon in the first segment of a
scheme-less relative path. -/

/-- ASCII letter. -/
def isAlphaChar (c : Char) : Bool :=
  ('a' ≤ c ∧ c ≤ 'z') ∨ ('A' ≤ c ∧ c ≤ 'Z')

/-- Character allowed inside a scheme after the first letter. -/
def isSchemeChar (c : Char) : Bool :=
  isAlphaChar c ∨ c.isDigit ∨ c = '+' ∨ c = '-' ∨ c = '.'

/-- Scan a valid scheme prefix up to a `':'`: every character before the
colon must be a scheme character. -/
def schemeScan : Str → Option (Str × Str)
  | [] => none
  | c :: r =>
    if c = ':' then some ([], r)
    else if isSchemeChar c then
      match schemeScan r with
      | none => none
      | some (a, b) => some (c :: a, b)
    else none

/-- Models `getscheme` of net/url: `none` is the "missing protocol scheme"
error for a leading `':'`; a letter-led scheme prefix ending in `':'` is
split off and lower-cased; anything else (leading digit, no colon, an
invalid character before the colon) means no scheme and the whole input as
remainder. -/
def getscheme (s : Str) : Option (Str × Str) :=
  match s with
  | [] => some ([], [])
  | c :: _ =>
    if c = ':' then none
    else if isAlphaChar c then
      match schemeScan s with
      | some (pre, post) => some (toLowerStr pre, post)
      | none => some ([], s)
    else some ([], s)

/-- Value of a hex digit. -/
def hexDigitVal (c : Char) : Option Nat :=
  if '0' ≤ c ∧ c ≤ '9' then some (c.toNat - '0'.toNat)
  else if 'a' ≤ c ∧ c ≤ 'f' then some (c.toNat - 'a'.toNat + 10)
  else if 'A' ≤ c ∧ c ≤ 'F' then some (c.toNat - 'A'.toNat + 10)
  else none

/-- Models `unescape` of net/url in path/query/fragment/userinfo modes: a
`'%'` must be followed by two hex digits and is decoded; any other
character passes through; an invalid escape fails the parse.  (`'+'` is not
special in these modes.) -/
def unescapePercent : Str → Option Str
  | [] => some []
  | c :: r =>
    if c = '%' then
      match r with
      | a :: b :: r2 =>
        match hexDigitVal a, hexDigitVal b with
        | some x, some y =>
          match unescapePercent r2 with
          | none => none
          | some d => some (Char.ofNat (16 * x + y) :: d)
        | _, _ => none
      | _ => none
    else
      match unescapePercent r with
      | none => none
      | some d => some (c :: d)

/-- Models `unescape` of net/url in host mode: like `unescapePercent`, but
escapes decoding below `0x80` are rejected except `%25`. -/
def unescapeHost : Str → Option Str
  | [] => some []
  | c :: r =>
    if c = '%' then
      match r with
      | a :: b :: r2 =>
        match hexDigitVal a, hexDigitVal b with
        | some x, some y =>
          if 16 * x + y < 128 ∧ 16 * x + y ≠ 37 then none
          else
            match unescapeHost r2 with
            | none => none
            | some d => some (Char.ofNat (16 * x + y) :: d)
        | _, _ => none
      | _ => none
    else
      match unescapeHost r with
      | none => none
      | some d => some (c :: d)

/-- Models `validOptionalPort`: empty, or a `':'` followed by digits only. -/
def validOptionalPort (p : Str) : Bool :=
  match p with
  | [] => true
  | c :: r => c = ':' ∧ r.all Char.isDigit

/-- Models `parseHost`: bracketed hosts need a closing bracket and a valid
optional port after it; otherwise the part after the last `':'`, if any,
must be a valid port; then host-mode unescaping is applied (and its decoded
result is what `u.Host` stores). -/
def parseHost (host : Str) : Option Str :=
  if host.head? = some '[' then
    match lastSplitChar ']' host with
    | none => none
    | some (_, colonPort) =>
      if validOptionalPort colonPort then unescapeHost host else none
  else
    match lastSplitChar ':' host with
    | none => unescapeHost host
    | some (_, after) =>
      if validOptionalPort (':' :: after) then unescapeHost host else none

/-- Models `parseAuthority`: userinfo before the last `'@'` must have valid
escapes; the host part is parsed by `parseHost`. -/
def parseAuthority (authority : Str) : Option Str :=
  match lastSplitChar '@' authority with
  | none => parseHost authority
  | some (userinfo, hostpart) =>
    match parseHost hostpart with
    | none => none
    | some h => if (unescapePercent userinfo).isSome then some h else none

/-- Does a `':'` occur before any `'/'`?  (The "first path segment in URL
cannot contain colon" check for scheme-less relative URLs.) -/
def colonBeforeSlash : Str → Bool
  | [] => false
  | c :: r => if c = ':' then true else if c = '/' then false else colonBeforeSlash r

/-- The observations of a parsed `*url.URL` that `FromURL` uses.  `Fragment`
is stored percent-decoded, `RawQuery` raw, `Host` as the decoded
`host:port` authority. -/
structure GoURL where
  Scheme : Str
  Host : Str
  RawQuery : Str
  Fragment : Str
deriving DecidableEq

/-- Modelled from Go `net/url.Parse` (see the section comment): fragment
split at the first `'#'` and decoded; `'*'` special-cased; scheme split
off; `ForceQuery` (a single trailing `'?'`) or raw query split at the first
`'?'`; opaque URLs (scheme present, remainder not `'/'`-led) keep an empty
host; scheme-less non-`'/'`-led remainders reject a colon in the first
segment; an authority is parsed between `"//"` and the following `'/'`
(unless a scheme-less URL starts with `"///"`); the path's escapes are
validated. -/
def urlParse (rawurl : Str) : Option GoURL :=
  let fsplit :=
    match splitFirstChar '#' rawurl with
    | none => (rawurl, ([] : Str))
    | some (a, b) => (a, b)
  match unescapePercent fsplit.2 with
  | none => none
  | some fragDec =>
    if fsplit.1 = ['*'] then some ⟨[], [], [], fragDec⟩
    else
      match getscheme fsplit.1 with
      | none => none
      | some (scheme, rest0) =>
        let qsplit :=
          if rest0.getLast? = some '?' ∧ ¬ ('?' ∈ rest0.dropLast) then
            (rest0.dropLast, ([] : Str))
          else
            match splitFirstChar '?' rest0 with
            | none => (rest0, ([] : Str))
            | some (a, b) => (a, b)
        let rest1 := qsplit.1
        let rawQuery := qsplit.2
        if rest1.head? ≠ some '/' ∧ scheme ≠ [] then
          some ⟨scheme, [], rawQuery, fragDec⟩
        else if rest1.head? ≠ some '/' ∧ scheme = [] ∧ colonBeforeSlash rest1 then
          none
        else if (['/', '/'].isPrefixOf rest1) ∧
            (scheme ≠ [] ∨ ¬ (['/', '/', '/'].isPrefixOf rest1)) then
          let asplit :=
            match splitFirstChar '/' (rest1.drop 2) with
            | none => (rest1.drop 2, ([] : Str))
            | some (a, b) => (a, '/' :: b)
          match parseAuthority asplit.1 with
          | none => none
          | some host =>
            match unescapePercent asplit.2 with
            | none => none
            | some _ => some ⟨scheme, host, rawQuery, fragDec⟩
        else
          match unescapePercent rest1 with
          | none => none
          | some _ => some ⟨scheme, [], rawQuery, fragDec⟩

/-- Models `URL.Hostname()` / `stripPort`: everything before the first
`':'`, with bracket handling for IPv6 literals. -/
def stripPort (hp : Str) : Str :=
  match splitFirstChar ':' hp with
  | none => hp
  | some (h, _) =>
    match splitFirstChar ']' hp with
    | some (pre, _) => if pre.head? = some '[' then pre.tail else pre
    | none => h

/-- First occurrence of the two-character sequence `"]:"`: the remainder
after it, if present. -/
def cutBracketColon : Str → Option Str
  | [] => none
  | [_] => none
  | c1 :: c2 :: r =>
    if c1 = ']' ∧ c2 = ':' then some r
    else cutBracketColon (c2 :: r)

/-- Models `URL.Port()` / `portOnly`: empty without a `':'`; after a `"]:"`
for bracketed hosts; empty for a bracketed host without port; otherwise
everything after the first `':'`. -/
def portOnly (hp : Str) : Str :=
  match splitFirstChar ':' hp with
  | none => []
  | some (_, after) =>
    match cutBracketColon hp with
    | some r => r
    | none => if ']' ∈ hp then [] else after

/-- Errors `FromURL` can return: the error propagated from `url.Parse`,
or its own `"invalid url"` error. -/
inductive UrlErr where
  | parseErr
  | invalidUrl
deriving DecidableEq

/-- `FromURL` from request.go (latest revision): parse the URL (returning
the zero-valued `&Request{}` together with the parse error on failure);
require the raw URL to contain `"//"`, else return nil and the
`"invalid url"` error; recover the literal path from the raw URL by taking
what follows the first `'/'` after the `"//"`, cutting at the first `'?'`
and then at the first `'#'` (path `"/"` when there is no such `'/'`);
populate the request from the parsed URL (`TLS` iff scheme is https, raw
query, decoded fragment, protocol `HTTP/1.1`, EOL `"\r\n"`, timeout 30s);
default the path to `"/"` and the port to `443`/`80`. -/
def FromURL (method rawurl : Str) : Option Request × Option UrlErr :=
  match urlParse rawurl with
  | none => (some emptyRequest, some .parseErr)
  | some u =>
    match cutDslash rawurl with
    | none => (none, some .invalidUrl)
    | some (_, afterDslash) =>
      let path : Str :=
        match splitFirstChar '/' afterDslash with
        | none => ['/']
        | some (_, p2) => cutBefore '#' (cutBefore '?' ('/' :: p2))
      let r0 : Request :=
        { TLS := decide (u.Scheme = ("https".data))
          Method := method
          Scheme := u.Scheme
          Hostname := stripPort u.Host
          Port := portOnly u.Host
          Path := path
          Query := u.RawQuery
          Fragment := u.Fragment
          Proto := ("HTTP/1.1".data)
          Headers := []
          Body := []
          EOL := ("\r\n".data)
          Timeout := 30 }
      let r1 := if r0.Path = [] then { r0 with Path := ['/'] } else r0
      let r2 :=
        if r1.Port = [] then
          if r1.TLS then { r1 with Port := ("443".data) }
          else { r1 with Port := ("80".data) }
        else r1
      (some r2, none)

theorem cutDslash_none_iff (s : Str) :
    cutDslash s = none ↔ hasDslash s = false := by
  induction s with
  | nil => simp [cutDslash, hasDslash]
  | cons c1 t ih =>
    cases t with
    | nil => simp [cutDslash, hasDslash]
    | cons c2 r =>
      by_cases hp : c1 = '/' ∧ c2 = '/'
      · simp [cutDslash, hasDslash, hp]
      · simp only [cutDslash, hasDslash, if_neg hp]
        cases hc : cutDslash (c2 :: r) with
        | none =>
          rw [hc] at ih
          simp [hp, ih.mp rfl]
        | some ab =>
          rw [hc] at ih
          have : hasDslash (c2 :: r) = true := by
            rcases hhd : hasDslash (c2 :: r) with _ | _
            · exact absurd (ih.mpr hhd) (by simp)
            · rfl
          simp [this]

/-- C9 (amended): `FromURL` succeeds only for URL strings containing
`"//"`.  For a string without `"//"` the result always carries an error;
when the underlying URL parser accepts the string, that error is the
`"invalid url"` error with no Request returned — but when the parser
rejects the string, the parser's own error is returned instead (together
with the zero-valued `&Request{}`, as the code returns `r, err` there). -/
theorem c9_requires_double_slash (method rawurl : Str) :
    ((FromURL method rawurl).2 = none → hasDslash rawurl = true) ∧
    (hasDslash rawurl = false →
      ((FromURL method rawurl).2.isSome = true ∧
       (∀ u, urlParse rawurl = some u →
          FromURL method rawurl = (none, some .invalidUrl)))) := by
  constructor
  · intro hnone
    rcases hds : hasDslash rawurl with _ | _
    · exfalso
      have hcut : cutDslash rawurl = none := (cutDslash_none_iff rawurl).mpr hds
      unfold FromURL at hnone
      cases hp : urlParse rawurl with
      | none => rw [hp] at hnone; simp at hnone
      | some u => rw [hp] at hnone; rw [hcut] at hnone; simp at hnone
    · rfl
  · intro hds
    have hcut : cutDslash rawurl = none := (cutDslash_none_iff rawurl).mpr hds
    constructor
    · unfold FromURL
      cases hp : urlParse rawurl with
      | none => simp
      | some u => rw [hcut]; simp
    · intro u hu
      unfold FromURL
      rw [hu, hcut]

/-- Witness for C9: `"mailto:x@y"` is accepted by the URL parser, contains
no `"//"`, and `FromURL` rejects it with the `"invalid url"` error and no
Request. -/
theorem c9_requires_double_slash_witness :
    FromURL ("GET".data) ("mailto:x@y".data) = (none, some .invalidUrl) :=
  ((c9_requires_double_slash ("GET".data) ("mailto:x@y".data)).2
      (by decide)).2 ⟨("mailto".data), [], [], []⟩ (by decide)

/-- Counterexample to C9 as stated: `"%zz"` contains no `"//"`, but the URL
parser rejects it (invalid percent-escape), so `FromURL` returns the
parser's error — not the `"invalid url"` error — together with a non-nil
zero-valued Request, contradicting "returns an invalid-url error and no
Request for every URL string without `//`". -/
theorem c9_counterexample :
    FromURL ("GET".data) ("%zz".data) = (some emptyRequest, some .parseErr) ∧
    hasDslash ("%zz".data) = false ∧
    UrlErr.parseErr ≠ UrlErr.invalidUrl ∧
    (FromURL ("GET".data) ("%zz".data)).1 ≠ none := by decide

/-- Counterexample to C1 as stated: `FromURL` accepts
`"http://h/#a%20b"`, whose literal path-query-fragment substring is
`"/#a%20b"`, but the rendered request line's fullPath is `"/#a b"` — the
fragment comes back percent-decoded from the URL parser, so the rendering
is not byte-for-byte. -/
theorem c1_counterexample :
    FromURL ("GET".data) ("http://h/#a%20b".data)
      = (some ⟨false, ("GET".data), ("http".data), ("h".data), ("80".data),
          ("/".data), [], ("a b".data), ("HTTP/1.1".data), [], [],
          ("\r\n".data), 30⟩, none) ∧
    Request.fullPath ⟨false, ("GET".data), ("http".data), ("h".data),
        ("80".data), ("/".data), [], ("a b".data), ("HTTP/1.1".data), [], [],
        ("\r\n".data), 30⟩ = ("/#a b".data) ∧
    (("/#a b".data) : Str) ≠ ("/#a%20b".data) := by decide

/-- Lower-case ASCII letter. -/
def isLowerAlphaChar (c : Char) : Bool := 'a' ≤ c ∧ c ≤ 'z'

/-- Characters from which the hosts of the C1 theorem are drawn: ASCII
letters and digits, dot and dash — hostnames in the usual sense, free of
the authority metacharacters. -/
def isHostSafeChar (c : Char) : Bool := c.isAlphanum ∨ c = '.' ∨ c = '-'

theorem toLowerStr_id (s : Str) (h : ∀ c ∈ s, lowerChar c = c) :
    toLowerStr s = s := by
  induction s with
  | nil => rfl
  | cons c t ih =>
    simp only [toLowerStr, List.map_cons]
    rw [h c (by simp)]
    have := ih (fun x hx => h x (by simp [hx]))
    simp only [toLowerStr] at this
    rw [this]

theorem lowerAlpha_facts (c : Char) (h : isLowerAlphaChar c = true) :
    isAlphaChar c = true ∧ isSchemeChar c = true ∧ lowerChar c = c ∧
      c ≠ ':' ∧ c ≠ '/' ∧ c ≠ '?' ∧ c ≠ '#' ∧ c ≠ '*' := by
  simp only [isLowerAlphaChar, decide_eq_true_eq] at h
  have halpha : isAlphaChar c = true := by
    simp only [isAlphaChar, decide_eq_true_eq]
    exact Or.inl h
  refine ⟨halpha, ?_, ?_, ?_, ?_, ?_, ?_, ?_⟩
  · simp only [isSchemeChar, halpha]
    simp
  · unfold lowerChar
    rw [if_neg]
    intro hAZ
    exact absurd (le_trans h.1 hAZ.2) (by decide)
  · intro he; rw [he] at h; exact absurd h (by decide)
  · intro he; rw [he] at h; exact absurd h (by decide)
  · intro he; rw [he] at h; exact absurd h (by decide)
  · intro he; rw [he] at h; exact absurd h (by decide)
  · intro he; rw [he] at h; exact absurd h (by decide)

theorem hostSafe_facts (c : Char) (h : isHostSafeChar c = true) :
    c ≠ '/' ∧ c ≠ '?' ∧ c ≠ '#' ∧ c ≠ ':' ∧ c ≠ '@' ∧ c ≠ '[' ∧ c ≠ '%' := by
  refine ⟨?_, ?_, ?_, ?_, ?_, ?_, ?_⟩ <;>
    { intro he; rw [he] at h; exact absurd h (by decide) }

theorem unescapePercent_no_pct (s : Str) (h : '%' ∉ s) :
    unescapePercent s = some s := by
  induction s with
  | nil => rfl
  | cons c r ih =>
    have hc : c ≠ '%' := fun he => h (he ▸ List.mem_cons_self c r)
    have hr : '%' ∉ r := fun hm => h (List.mem_cons_of_mem c hm)
    unfold unescapePercent
    rw [if_neg hc, ih hr]

theorem unescapeHost_no_pct (s : Str) (h : '%' ∉ s) :
    unescapeHost s = some s := by
  induction s with
  | nil => rfl
  | cons c r ih =>
    have hc : c ≠ '%' := fun he => h (he ▸ List.mem_cons_self c r)
    have hr : '%' ∉ r := fun hm => h (List.mem_cons_of_mem c hm)
    unfold unescapeHost
    rw [if_neg hc, ih hr]

theorem unescapePercent_ne_nil (f df : Str) (hne : f ≠ [])
    (h : unescapePercent f = some df) : df ≠ [] := by
  cases f with
  | nil => exact absurd rfl hne
  | cons c r =>
    by_cases hc : c = '%'
    · subst hc
      unfold unescapePercent at h
      rw [if_pos rfl] at h
      cases r with
      | nil => simp at h
      | cons a r1 =>
        cases r1 with
        | nil => simp at h
        | cons b r2 =>
          cases hxa : hexDigitVal a with
          | none => simp [hxa] at h
          | some x =>
            cases hxb : hexDigitVal b with
            | none => simp [hxa, hxb] at h
            | some y =>
              simp only [hxa, hxb] at h
              cases hu : unescapePercent r2 with
              | none => simp [hu] at h
              | some d =>
                simp only [hu, Option.some.injEq] at h
                rw [← h]
                simp
    · unfold unescapePercent at h
      rw [if_neg hc] at h
      cases hu : unescapePercent r with
      | none => rw [hu] at h; simp at h
      | some d =>
        rw [hu] at h
        simp only [Option.some.injEq] at h
        rw [← h]
        simp

theorem lastSplitChar_of_not_mem (c : Char) (s : Str) (h : c ∉ s) :
    lastSplitChar c s = none := by
  unfold lastSplitChar
  rw [splitFirstChar_of_not_mem c s.reverse (by simpa using h)]

theorem schemeScan_append (sch rest : Str)
    (h : ∀ c ∈ sch, isSchemeChar c = true ∧ c ≠ ':') :
    schemeScan (sch ++ ':' :: rest) = some (sch, rest) := by
  induction sch with
  | nil => simp [schemeScan]
  | cons c t ih =>
    have hc := h c (by simp)
    have ht : ∀ x ∈ t, isSchemeChar x = true ∧ x ≠ ':' :=
      fun x hx => h x (by simp [hx])
    simp [schemeScan, hc.2, hc.1, ih ht]

theorem getscheme_append (sch rest : Str) (hne : sch ≠ [])
    (h : ∀ c ∈ sch, isLowerAlphaChar c = true) :
    getscheme (sch ++ ':' :: rest) = some (sch, rest) := by
  cases sch with
  | nil => exact absurd rfl hne
  | cons c t =>
    have hc := lowerAlpha_facts c (h c (by simp))
    have hscan : schemeScan ((c :: t) ++ ':' :: rest) = some (c :: t, rest) := by
      apply schemeScan_append
      intro x hx
      have := lowerAlpha_facts x (h x hx)
      exact ⟨this.2.1, this.2.2.2.1⟩
    have hlow : toLowerStr (c :: t) = c :: t := by
      apply toLowerStr_id
      intro x hx
      exact (lowerAlpha_facts x (h x hx)).2.2.1
    simp only [List.cons_append, getscheme]
    rw [if_neg hc.2.2.2.1, if_pos hc.1]
    simp only [List.cons_append] at hscan
    rw [hscan]
    simp [hlow]

theorem cutDslash_no_slash (a b : Str) (h : '/' ∉ a) :
    cutDslash (a ++ '/' :: '/' :: b) = some (a, b) := by
  induction a with
  | nil => simp [cutDslash]
  | cons x t ih =>
    have hx : x ≠ '/' := fun he => h (he ▸ List.mem_cons_self x t)
    have ht : '/' ∉ t := fun hm => h (List.mem_cons_of_mem x hm)
    cases t with
    | nil => simp [cutDslash, hx]
    | cons y t2 =>
      have hrec := ih ht
      simp only [List.cons_append] at hrec ⊢
      rw [cutDslash, if_neg (by intro hp; exact hx hp.1), hrec]

/-- C1 (amended): over URLs `scheme://host/path?query#fragment` — lowercase
alphabetic scheme, hostname drawn from letters/digits/dot/dash, path and
query free of `'?'`/`'#'`/`'%'` markers (path) and `'#'` (query), both
query and fragment non-empty, fragment with valid escapes — `FromURL`
succeeds and rendering reproduces the literal path and query substrings of
the URL byte for byte, while the fragment is reproduced after
percent-decoding by the URL parser (hence byte-for-byte exactly when it
contains no escape). -/
theorem c1_from_url_literal (m sch host p q f df : Str)
    (hsne : sch ≠ []) (hsc : ∀ c ∈ sch, isLowerAlphaChar c = true)
    (hhc : ∀ c ∈ host, isHostSafeChar c = true)
    (hpc : ∀ c ∈ p, c ≠ '?' ∧ c ≠ '#' ∧ c ≠ '%')
    (hqne : q ≠ []) (hqc : '#' ∉ q)
    (hfne : f ≠ []) (hdf : unescapePercent f = some df) :
    (FromURL m (sch ++ ':' :: '/' :: '/' ::
        (host ++ '/' :: (p ++ '?' :: (q ++ '#' :: f))))).2 = none ∧
    ((FromURL m (sch ++ ':' :: '/' :: '/' ::
        (host ++ '/' :: (p ++ '?' :: (q ++ '#' :: f))))).1.map Request.Path
      = some ('/' :: p)) ∧
    ((FromURL m (sch ++ ':' :: '/' :: '/' ::
        (host ++ '/' :: (p ++ '?' :: (q ++ '#' :: f))))).1.map Request.Query
      = some q) ∧
    ((FromURL m (sch ++ ':' :: '/' :: '/' ::
        (host ++ '/' :: (p ++ '?' :: (q ++ '#' :: f))))).1.map Request.Fragment
      = some df) ∧
    ((FromURL m (sch ++ ':' :: '/' :: '/' ::
        (host ++ '/' :: (p ++ '?' :: (q ++ '#' :: f))))).1.map Request.fullPath
      = some ('/' :: (p ++ '?' :: (q ++ '#' :: df)))) := by
  -- character non-membership facts
  have hs_hash : '#' ∉ sch :=
    fun h => (lowerAlpha_facts '#' (hsc '#' h)).2.2.2.2.2.2.1 rfl
  have hs_slash : '/' ∉ sch :=
    fun h => (lowerAlpha_facts '/' (hsc '/' h)).2.2.2.2.1 rfl
  have hh_hash : '#' ∉ host :=
    fun h => (hostSafe_facts '#' (hhc '#' h)).2.2.1 rfl
  have hh_qm : '?' ∉ host :=
    fun h => (hostSafe_facts '?' (hhc '?' h)).2.1 rfl
  have hh_slash : '/' ∉ host :=
    fun h => (hostSafe_facts '/' (hhc '/' h)).1 rfl
  have hh_colon : ':' ∉ host :=
    fun h => (hostSafe_facts ':' (hhc ':' h)).2.2.2.1 rfl
  have hh_at : '@' ∉ host :=
    fun h => (hostSafe_facts '@' (hhc '@' h)).2.2.2.2.1 rfl
  have hh_pct : '%' ∉ host :=
    fun h => (hostSafe_facts '%' (hhc '%' h)).2.2.2.2.2.2 rfl
  have hp_hash : '#' ∉ p := fun h => (hpc '#' h).2.1 rfl
  have hp_qm : '?' ∉ p := fun h => (hpc '?' h).1 rfl
  have hp_pct : '%' ∉ p := fun h => (hpc '%' h).2.2 rfl
  -- the pre-fragment part and the first '#' split
  have hsplitHash : splitFirstChar '#'
      (sch ++ ':' :: '/' :: '/' :: (host ++ '/' :: (p ++ '?' :: (q ++ '#' :: f))))
      = some (sch ++ ':' :: '/' :: '/' :: (host ++ '/' :: (p ++ '?' :: q)), f) := by
    have hre : sch ++ ':' :: '/' :: '/' :: (host ++ '/' :: (p ++ '?' :: (q ++ '#' :: f)))
        = (sch ++ ':' :: '/' :: '/' :: (host ++ '/' :: (p ++ '?' :: q))) ++ '#' :: f := by
      simp
    rw [hre]
    apply splitFirstChar_append
    simp only [List.mem_append, List.mem_cons, not_or]
    exact ⟨hs_hash, by decide, by decide, by decide, hh_hash, by decide,
      hp_hash, by decide, hqc⟩
  -- the parsed URL
  have hgs : getscheme (sch ++ ':' :: '/' :: '/' :: (host ++ '/' :: (p ++ '?' :: q)))
      = some (sch, '/' :: '/' :: (host ++ '/' :: (p ++ '?' :: q))) :=
    getscheme_append sch _ hsne hsc
  have hstar : ¬ (sch ++ ':' :: '/' :: '/' :: (host ++ '/' :: (p ++ '?' :: q))
      = ['*']) := by
    cases sch with
    | nil => exact absurd rfl hsne
    | cons c t => simp
  have hrest0 : '/' :: '/' :: (host ++ '/' :: (p ++ '?' :: q))
      = ('/' :: '/' :: (host ++ '/' :: p)) ++ '?' :: q := by
    simp
  have hforce : ¬ (('/' :: '/' :: (host ++ '/' :: (p ++ '?' :: q))).getLast?
        = some '?'
      ∧ ¬ ('?' ∈ ('/' :: '/' :: (host ++ '/' :: (p ++ '?' :: q))).dropLast)) := by
    intro hC
    apply hC.2
    rw [hrest0, List.dropLast_append_cons, List.dropLast_cons_of_ne_nil hqne]
    simp
  have hsplitQ : splitFirstChar '?' ('/' :: '/' :: (host ++ '/' :: (p ++ '?' :: q)))
      = some ('/' :: '/' :: (host ++ '/' :: p), q) := by
    rw [hrest0]
    apply splitFirstChar_append
    simp only [List.mem_append, List.mem_cons, not_or]
    exact ⟨by decide, by decide, hh_qm, by decide, hp_qm⟩
  have hsplitSlash : splitFirstChar '/' (host ++ '/' :: p) = some (host, p) :=
    splitFirstChar_append '/' host p hh_slash
  have hpa : parseAuthority host = some host := by
    unfold parseAuthority
    rw [lastSplitChar_of_not_mem '@' host hh_at]
    unfold parseHost
    have hbr : ¬ (host.head? = some '[') := by
      cases host with
      | nil => simp
      | cons c t =>
        simp only [List.head?_cons, Option.some.injEq]
        intro he
        exact (hostSafe_facts c (hhc c (by simp))).2.2.2.2.2.1 he
    rw [if_neg hbr, lastSplitChar_of_not_mem ':' host hh_colon]
    exact unescapeHost_no_pct host hh_pct
  have hupPath : unescapePercent ('/' :: p) = some ('/' :: p) := by
    apply unescapePercent_no_pct
    simp only [List.mem_cons, not_or]
    exact ⟨by decide, hp_pct⟩
  have hurl : urlParse (sch ++ ':' :: '/' :: '/' ::
      (host ++ '/' :: (p ++ '?' :: (q ++ '#' :: f))))
      = some ⟨sch, host, q, df⟩ := by
    unfold urlParse
    rw [hsplitHash]
    simp only [hdf]
    rw [if_neg hstar]
    simp only [hgs]
    rw [if_neg hforce]
    simp only [hsplitQ]
    rw [if_neg (by intro hc; exact hc.1 rfl),
        if_neg (by intro hc; exact hc.1 rfl),
        if_pos ⟨by simp [List.isPrefixOf], Or.inl hsne⟩]
    simp only [List.drop_succ_cons, List.drop_zero, hsplitSlash, hpa, hupPath]
  -- the FromURL computation
  have hcut : cutDslash (sch ++ ':' :: '/' :: '/' ::
      (host ++ '/' :: (p ++ '?' :: (q ++ '#' :: f))))
      = some (sch ++ [':'], host ++ '/' :: (p ++ '?' :: (q ++ '#' :: f))) := by
    have hre : sch ++ ':' :: '/' :: '/' :: (host ++ '/' :: (p ++ '?' :: (q ++ '#' :: f)))
        = (sch ++ [':']) ++ '/' :: '/' :: (host ++ '/' :: (p ++ '?' :: (q ++ '#' :: f))) := by
      simp
    rw [hre]
    apply cutDslash_no_slash
    simp only [List.mem_append, List.mem_cons, not_or]
    exact ⟨hs_slash, by decide, by simp⟩
  have hsplitSlash2 : splitFirstChar '/' (host ++ '/' :: (p ++ '?' :: (q ++ '#' :: f)))
      = some (host, p ++ '?' :: (q ++ '#' :: f)) :=
    splitFirstChar_append '/' host _ hh_slash
  have hcutQ : splitFirstChar '?' ('/' :: (p ++ '?' :: (q ++ '#' :: f)))
      = some ('/' :: p, q ++ '#' :: f) := by
    have hre : '/' :: (p ++ '?' :: (q ++ '#' :: f))
        = ('/' :: p) ++ '?' :: (q ++ '#' :: f) := by simp
    rw [hre]
    apply splitFirstChar_append
    simp only [List.mem_cons, not_or]
    exact ⟨by decide, hp_qm⟩
  have hcutH : splitFirstChar '#' ('/' :: p) = none := by
    apply splitFirstChar_of_not_mem
    simp only [List.mem_cons, not_or]
    exact ⟨by decide, hp_hash⟩
  have hstripPort : stripPort host = host := by
    unfold stripPort
    rw [splitFirstChar_of_not_mem ':' host hh_colon]
  have hportOnly : portOnly host = [] := by
    unfold portOnly
    rw [splitFirstChar_of_not_mem ':' host hh_colon]
  have hdfne : df ≠ [] := unescapePercent_ne_nil f df hfne hdf
  have hfu : FromURL m (sch ++ ':' :: '/' :: '/' ::
      (host ++ '/' :: (p ++ '?' :: (q ++ '#' :: f))))
      = (some { TLS := decide (sch = ("https".data)), Method := m,
                Scheme := sch, Hostname := host,
                Port := (if decide (sch = ("https".data)) = true
                  then ("443".data) else ("80".data)),
                Path := '/' :: p, Query := q, Fragment := df,
                Proto := ("HTTP/1.1".data), Headers := [], Body := [],
                EOL := ("\r\n".data), Timeout := 30 }, none) := by
    unfold FromURL
    rw [hurl, hcut]
    simp only [hsplitSlash2]
    unfold cutBefore
    rw [hcutQ, hcutH]
    simp only [hstripPort, hportOnly]
    simp
    by_cases hb : sch = ("https".data) <;> simp [hb]
  rw [hfu]
  refine ⟨rfl, ?_, ?_, ?_, ?_⟩ <;>
    by_cases hb : sch = ("https".data) <;>
      simp [hb, Request.fullPath, hqne, hdfne]

/-- Witness for C1 at a concrete URL: the literal path `a/b` and query
`x=1` come back byte for byte; the fragment `s%20t` comes back decoded as
`s t`. -/
theorem c1_from_url_literal_witness :
    ((FromURL ("GET".data) ("http://ex.com/a/b?x=1#s%20t".data)).1.map
        Request.fullPath) = some ("/a/b?x=1#s t".data) := by
  have h := c1_from_url_literal ("GET".data) ("http".data) ("ex.com".data)
      ("a/b".data) ("x=1".data) ("s%20t".data) ("s t".data)
      (by decide) (by decide) (by decide) (by decide) (by decide) (by decide)
      (by decide) (by decide)
  exact h.2.2.2.2

end rawhttp
